import Mathlib

/-!
# Verification of the batch/chunk mitigation engine (`find_meetings.py`)

Shallow embedding of the mitigation-strategy engine of this repository:

* `batch_attendees`  — attendee partitioner (`find_meetings.py`, lines 54-56);
* `chunk_dates`      — date-range chunker (`find_meetings.py`, lines 59-67);
* `call_findmeetingtimes` — the external-call wrapper (lines 70-196);
* `run_mitigation`   — the call scheduler & aggregator (lines 291-321);
* `load_test_attendees` and `test_mitigation_effectiveness` — configuration
  validation and the driver that wires them together (lines 23-28, 274-288).

Modelling conventions:

* Python `int` is `ℤ`; `datetime` values are `ℤ` microseconds on the proleptic
  Gregorian calendar (CPython's `datetime` resolution is one microsecond), so
  `timedelta(days = d)` is `d * 86400000000`.
* A Python function that can raise is embedded as `Except String _`; the
  `.error` case carries the exception message.
* The remote Graph API call (`client.me.find_meeting_times.post`) is an
  external effect: it is modelled as an oracle argument of type `Api` that
  either returns a response object or raises (an `ApiError` with the remote
  status code and the rendered message `str(e)`).
* Python `float` division (`successful / len(results)`) is modelled as exact
  division in `ℚ`.
* Loops with mutable accumulators are folds; list comprehensions are `map`
  over the range they iterate.
-/

/-! ## Python primitives used by the source -/

/-- One step of CPython's `range(start, stop, step)` for a positive `step`:
`fuel` bounds the recursion; `pyRange` always supplies enough fuel, since a
positive step shrinks `stop - start` by at least one per element. -/
def rangeAscGo : ℕ → ℤ → ℤ → ℤ → List ℤ
  | 0, _, _, _ => []
  | (fuel + 1), start, stop, step =>
    if start < stop then start :: rangeAscGo fuel (start + step) stop step else []

/-- CPython's `range(start, stop, step)` for a negative `step` (counts down
while `start > stop`), with the same fuel discipline. -/
def rangeDescGo : ℕ → ℤ → ℤ → ℤ → List ℤ
  | 0, _, _, _ => []
  | (fuel + 1), start, stop, step =>
    if stop < start then start :: rangeDescGo fuel (start + step) stop step else []

/-- CPython's `range(start, stop, step)` as a list.  `range` raises
`ValueError: range() arg 3 must not be zero` when `step = 0`; otherwise it is
the arithmetic progression from `start` towards `stop` with stride `step`. -/
def pyRange (start stop step : ℤ) : Except String (List ℤ) :=
  if step = 0 then .error "range() arg 3 must not be zero"
  else if 0 < step then .ok (rangeAscGo (stop - start).toNat start stop step)
  else .ok (rangeDescGo (start - stop).toNat start stop step)

/-- Python list slicing `l[i:j]` for `0 ≤ i` and `0 ≤ j` (the only indices the
source produces: `attendees[i:i + batch_size]` with `i` drawn from
`range(0, len(attendees), batch_size)` and a positive `batch_size`): the
elements at positions `i, …, j-1`, clipped to the list. -/
def pySlice {α : Type} (l : List α) (i j : ℤ) : List α :=
  (l.take j.toNat).drop i.toNat

/-! ## `batch_attendees` (find_meetings.py, lines 54-56)

```python
def batch_attendees(attendees: List[str], batch_size: int = 5) -> List[List[str]]:
    """Split attendees into batches."""
    return [attendees[i:i + batch_size] for i in range(0, len(attendees), batch_size)]
```
-/

/-- `batch_attendees`: the list comprehension over `range(0, len, batch_size)`.
A `ValueError` raised by `range` (when `batch_size = 0`) propagates. -/
def batch_attendees (attendees : List String) (batch_size : ℤ) :
    Except String (List (List String)) :=
  (pyRange 0 attendees.length batch_size).map
    (fun idxs => idxs.map (fun i => pySlice attendees i (i + batch_size)))

/-! ## `chunk_dates` (find_meetings.py, lines 59-67)

```python
def chunk_dates(start: datetime, end: datetime, days: int = 3) -> List[tuple]:
    """Split date range into chunks."""
    chunks = []
    current = start
    while current < end:
        chunk_end = min(current + timedelta(days=days), end)
        chunks.append((current, chunk_end))
        current = chunk_end
    return chunks
```
-/

/-- `timedelta(days = d)` in microseconds. -/
def timedelta_days (d : ℤ) : ℤ := d * 86400000000

/-- The `while current < end` loop of `chunk_dates`, with a fuel bound on the
number of iterations.  `chunk_dates` supplies fuel `(end - start).toNat`,
which is sufficient whenever `days ≥ 1` because each iteration advances
`current` by at least one microsecond.  (For `days ≤ 0` and `start < end` the
Python loop does not terminate; that region is outside every claim.) -/
def chunk_dates_go : ℕ → ℤ → ℤ → ℤ → List (ℤ × ℤ)
  | 0, _, _, _ => []
  | (fuel + 1), current, fin, days =>
    if current < fin then
      (current, min (current + timedelta_days days) fin) ::
        chunk_dates_go fuel (min (current + timedelta_days days) fin) fin days
    else []

/-- `chunk_dates`: split the interval `[start, fin)` into consecutive chunks
of `days` days, the last clipped to `fin`. -/
def chunk_dates (start fin days : ℤ) : List (ℤ × ℤ) :=
  chunk_dates_go (fin - start).toNat start fin days

/-! ## Timestamps and ISO rendering

The drivers build timestamps with `datetime(year, month, day)` and pass them
to the external call as `chunk_start.isoformat()` strings. -/

/-- Modelled from the Python standard library: the proleptic-Gregorian civil
day count of `datetime.date`, as days since 1970-01-01 (the standard
days-from-civil computation; only dates with positive year are used, where
truncating and flooring division agree). -/
def days_from_civil (y m d : ℤ) : ℤ :=
  let y2 := if m ≤ 2 then y - 1 else y
  let era := y2 / 400
  let yoe := y2 - era * 400
  let mp := (m + 9) % 12
  let doy := (153 * mp + 2) / 5 + d - 1
  let doe := yoe * 365 + yoe / 4 - yoe / 100 + doy
  era * 146097 + doe - 719468

/-- `datetime(y, m, d)` (midnight) as microseconds since the epoch. -/
def pyDatetime (y m d : ℤ) : ℤ := 86400000000 * days_from_civil y m d

/-- Modelled from the Python standard library: `datetime.isoformat()`.  What
matters to every claim is only *which* timestamp is handed to the external
call, so the ISO text is modelled as an injective rendering of the
microsecond timestamp. -/
def isoformat (t : ℤ) : String := toString t

/-- Recursion for `pySplitComma`, over the characters with an accumulator for
the current field (kept reversed). -/
def splitCommaGo : List Char → List Char → List String
  | [], acc => [String.mk acc.reverse]
  | c :: cs, acc =>
    if c = ',' then String.mk acc.reverse :: splitCommaGo cs []
    else splitCommaGo cs (c :: acc)

/-- Modelled from the Python standard library: `str.split(",")` — the fields
between commas, in order; the empty string yields `[""]`. -/
def pySplitComma (s : String) : List String := splitCommaGo s.data []

/-- Modelled from the Python standard library: `str.strip()` — remove leading
and trailing whitespace. -/
def pyStrip (s : String) : String :=
  String.mk (((s.data.dropWhile Char.isWhitespace).reverse.dropWhile
    Char.isWhitespace).reverse)

/-! ## The external call (`call_findmeetingtimes`, find_meetings.py lines 70-196)

The Python function builds a request body from its arguments, awaits
`client.me.find_meeting_times.post(request_body)` inside a `try`, normalizes
the SDK response into a plain dict, and returns
`{"status": 200, "data": …}`; any exception `e` raised inside the `try`
(network, deserialization, remote 4xx/5xx, …) is caught by the single
`except Exception` handler, which returns `{"status": 500, "data": str(e)}`.
The SDK's optional response fields are modelled as present, as the success
path dereferences them unguarded; the `save_debug` file dump (lines 113-171)
is an output-only side effect touching nothing the claims mention and is not
modelled. -/

/-- A `dateTimeTimeZone` record as surfaced by the SDK response. -/
structure DateTimeTZ where
  date_time : String
  time_zone : String
deriving DecidableEq

/-- A suggested meeting time slot (`meeting_time_slot` of a suggestion). -/
structure MeetingSlot where
  slot_start : DateTimeTZ
  slot_end : DateTimeTZ
deriving DecidableEq

/-- One SDK meeting-time suggestion.  `confidence` is a float score that the
code only copies, never computes with; it is modelled as an exact rational. -/
structure MeetingTimeSuggestion where
  confidence : ℚ
  organizer_availability : String
  meeting_time_slot : MeetingSlot
deriving DecidableEq

/-- The SDK response object of `find_meeting_times.post`.  A `None`
suggestion list is modelled as the empty list, matching the code's
`(result.meeting_time_suggestions or [])`. -/
structure FindMeetingTimesResponse where
  meeting_time_suggestions : List MeetingTimeSuggestion
  empty_suggestions_reason : Option String
deriving DecidableEq

/-- An exception raised by the awaited SDK call: the remote HTTP status code
(e.g. 502) together with the rendered message `str(e)`. -/
structure ApiError where
  code : ℤ
  msg : String
deriving DecidableEq

/-- The external Graph API, as an oracle: from the request data
(attendee emails, ISO start/end, meeting duration in minutes, max
candidates) either a response object or a raised exception. -/
def Api : Type :=
  List String → String → String → ℤ → ℤ → Except ApiError FindMeetingTimesResponse

/-- One entry of the normalized `"meetingTimeSuggestions"` list the function
returns on success (lines 176-191). -/
structure SuggestionOut where
  confidence : ℚ
  organizerAvailability : String
  meetingTimeSlot : MeetingSlot
deriving DecidableEq

/-- The `"data"` dict of a successful call (lines 173-194). -/
structure SuccessData where
  meetingTimeSuggestions : List SuggestionOut
  emptySuggestionsReason : Option String
deriving DecidableEq

/-- The `"data"` value of the returned dict: the normalized payload on
success, or `str(e)` on failure. -/
inductive CallData where
  | success (d : SuccessData)
  | errText (s : String)
deriving DecidableEq

/-- The dict returned by `call_findmeetingtimes`. -/
structure CallResult where
  status : ℤ
  data : CallData
deriving DecidableEq

/-- The success-path normalization of the SDK response (lines 173-194). -/
def normalize_response (r : FindMeetingTimesResponse) : SuccessData :=
  { meetingTimeSuggestions := r.meeting_time_suggestions.map (fun item =>
      { confidence := item.confidence
        organizerAvailability := item.organizer_availability
        meetingTimeSlot := item.meeting_time_slot })
    emptySuggestionsReason := r.empty_suggestions_reason }

/-- `call_findmeetingtimes`: returns `{"status": 200, "data": …}` when the
awaited call returns, and `{"status": 500, "data": str(e)}` when anything in
the `try` block raises.  Totality of this definition is the embedding of
"never raises to its caller". -/
def call_findmeetingtimes (api : Api) (attendees : List String)
    (start_s end_s : String) (duration max_candidates : ℤ) : CallResult :=
  match api attendees start_s end_s duration max_candidates with
  | .ok result => { status := 200, data := .success (normalize_response result) }
  | .error e => { status := 500, data := .errText e.msg }

/-! ## `run_mitigation` (find_meetings.py, lines 291-321)

```python
batches = batch_attendees(attendees, batch_size)
chunks = chunk_dates(start, end, days_per_chunk)
results = []; successful = 0; failed = 0
for batch in batches:
    for chunk_start, chunk_end in chunks:
        result = await call_findmeetingtimes(client, batch,
            chunk_start.isoformat(), chunk_end.isoformat(), duration, max_candidates)
        results.append(result)
        if result["status"] == 200: successful += 1
        else: failed += 1
return {"total_calls": len(results), "successful": successful, "failed": failed,
        "success_rate": successful / len(results) if results else 0,
        "results": results}
```
-/

/-- The dict returned by `run_mitigation`. -/
structure MitigationReport where
  total_calls : ℕ
  successful : ℕ
  failed : ℕ
  success_rate : ℚ
  results : List CallResult
deriving DecidableEq

/-- The loop body acting on the accumulator
`(results, successful, failed)`: append the call result and bump the
matching counter. -/
def aggStep (acc : List CallResult × ℕ × ℕ) (result : CallResult) :
    List CallResult × ℕ × ℕ :=
  (acc.1 ++ [result],
   if result.status = 200 then acc.2.1 + 1 else acc.2.1,
   if result.status = 200 then acc.2.2 else acc.2.2 + 1)

/-- `run_mitigation`: partition, chunk, then the nested
`for batch in batches: for chunk in chunks:` loop, returning the aggregate
report.  The `ValueError` that `batch_attendees` raises for
`batch_size = 0` propagates out, as in the source. -/
def run_mitigation (api : Api) (attendees : List String) (start fin : ℤ)
    (batch_size days_per_chunk duration max_candidates : ℤ) :
    Except String MitigationReport :=
  match batch_attendees attendees batch_size with
  | .error e => .error e
  | .ok batches =>
    let chunks := chunk_dates start fin days_per_chunk
    let acc := batches.foldl (fun acc batch =>
      chunks.foldl (fun acc chunk =>
        aggStep acc (call_findmeetingtimes api batch
          (isoformat chunk.1) (isoformat chunk.2) duration max_candidates)) acc)
      (([], 0, 0) : List CallResult × ℕ × ℕ)
    .ok { total_calls := acc.1.length
          successful := acc.2.1
          failed := acc.2.2
          success_rate := if acc.1 = [] then 0 else (acc.2.1 : ℚ) / acc.1.length
          results := acc.1 }

/-! ## Configuration validation and driver
(`load_test_attendees`, lines 23-28; `test_mitigation_effectiveness`,
lines 274-288) -/

/-- `load_test_attendees`: parse the `TEST_ATTENDEES` environment value
(`""` when the variable is missing, per `os.getenv(_, "")`), split on commas,
strip items, drop empty ones, and raise when nothing remains. -/
def load_test_attendees (raw_value : String) : Except String (List String) :=
  let attendees := ((pySplitComma raw_value).map pyStrip).filter (fun s => s != "")
  if attendees = [] then
    .error "TEST_ATTENDEES is required. Provide a comma-separated list in .env."
  else .ok attendees

/-- `test_mitigation_effectiveness`: evaluates `load_test_attendees()` (whose
`ValueError` propagates before any call is issued) and then runs
`run_mitigation` over Jan 29 to Feb 28 2026 with batch size 5, 3-day chunks,
duration 60 and 50 max candidates. -/
def test_mitigation_effectiveness (api : Api) (raw_value : String) :
    Except String MitigationReport :=
  match load_test_attendees raw_value with
  | .error e => .error e
  | .ok attendees =>
      run_mitigation api attendees (pyDatetime 2026 1 29) (pyDatetime 2026 2 28) 5 3 60 50

/-! ## Auxiliary definitions for the statements and witnesses -/

/-- The per-unit call results of `run_mitigation`, one per `(batch, chunk)`
pair of the Cartesian product, in partition-major, chunk-minor order (used to
characterize the fold in `run_mitigation`). -/
def unit_results (api : Api) (batches : List (List String))
    (chunks : List (ℤ × ℤ)) (duration max_candidates : ℤ) : List CallResult :=
  batches.flatMap (fun batch => chunks.map (fun chunk =>
    call_findmeetingtimes api batch (isoformat chunk.1) (isoformat chunk.2)
      duration max_candidates))

/-- A concrete oracle for witnesses: the remote service always fails with
HTTP 502 (the failure mode this repository mitigates). -/
def api502 : Api := fun _ _ _ _ _ => .error { code := 502, msg := "Bad Gateway" }

/-- A concrete oracle for witnesses: the remote service always answers with
an empty suggestion list. -/
def apiEmptyOk : Api := fun _ _ _ _ _ =>
  .ok { meeting_time_suggestions := [], empty_suggestions_reason := some "attendeesUnavailable" }

/-- A concrete 25-participant list (the spec's example scenario). -/
def att25 : List String :=
  ["p01", "p02", "p03", "p04", "p05", "p06", "p07", "p08", "p09", "p10",
   "p11", "p12", "p13", "p14", "p15", "p16", "p17", "p18", "p19", "p20",
   "p21", "p22", "p23", "p24", "p25"]

/-! ## Properties of the date-range chunker -/

lemma chunk_dates_go_of_not_lt {fuel : ℕ} {current fin days : ℤ}
    (h : ¬ current < fin) : chunk_dates_go fuel current fin days = [] := by
  cases fuel <;> simp [chunk_dates_go, h]

lemma timedelta_days_pos {days : ℤ} (hd : 0 < days) : 0 < timedelta_days days := by
  simp only [timedelta_days]; omega

/-- Invariants of the chunking loop, by induction on the fuel: whenever the
fuel covers the remaining interval, the produced chunk list is nonempty,
starts at `current`, has every end equal to `min (start + D) fin`, is
contiguous, ends exactly at `fin`, and every chunk is a nonempty interval. -/
lemma chunk_dates_go_spec (days fin : ℤ) (hd : 0 < days) :
    ∀ (fuel : ℕ) (current : ℤ), current < fin → (fin - current).toNat ≤ fuel →
      chunk_dates_go fuel current fin days ≠ [] ∧
      (∀ c ∈ (chunk_dates_go fuel current fin days).head?, c.1 = current) ∧
      (∀ c ∈ chunk_dates_go fuel current fin days,
        c.2 = min (c.1 + timedelta_days days) fin) ∧
      List.Chain' (fun a b => a.2 = b.1) (chunk_dates_go fuel current fin days) ∧
      (∀ c ∈ (chunk_dates_go fuel current fin days).getLast?, c.2 = fin) ∧
      (∀ c ∈ chunk_dates_go fuel current fin days, c.1 < c.2) := by
  intro fuel
  induction fuel with
  | zero =>
    intro current hlt hfuel
    exfalso; omega
  | succ fuel ih =>
    intro current hlt hfuel
    have htd : 0 < timedelta_days days := timedelta_days_pos hd
    simp only [chunk_dates_go, if_pos hlt]
    by_cases hend : fin ≤ current + timedelta_days days
    · -- final chunk: the clipped end reaches `fin` and the loop stops next
      have hmin : min (current + timedelta_days days) fin = fin := min_eq_right hend
      rw [hmin, chunk_dates_go_of_not_lt (lt_irrefl fin)]
      refine ⟨by simp, by simp, ?_, ?_, by simp, ?_⟩
      · intro c hc
        simp only [List.mem_singleton] at hc
        subst hc; simp [hmin]
      · simp
      · intro c hc
        simp only [List.mem_singleton] at hc
        subst hc; simpa using hlt
    · -- the loop continues from `current + D`
      push_neg at hend
      have hmin : min (current + timedelta_days days) fin = current + timedelta_days days :=
        min_eq_left (le_of_lt hend)
      rw [hmin]
      have hlt' : current + timedelta_days days < fin := hend
      have hfuel' : (fin - (current + timedelta_days days)).toNat ≤ fuel := by omega
      obtain ⟨hne, hhead, hends, hchain, hlast, hbound⟩ := ih _ hlt' hfuel'
      refine ⟨by simp, by simp, ?_, ?_, ?_, ?_⟩
      · intro c hc
        rcases List.mem_cons.1 hc with hc | hc
        · subst hc; simp [hmin]
        · exact hends c hc
      · refine List.chain'_cons'.2 ⟨?_, hchain⟩
        intro y hy
        have := hhead y hy
        simp [this]
      · intro c hc
        rcases hrest : chunk_dates_go fuel (current + timedelta_days days) fin days with
          _ | ⟨r, rs⟩
        · exact absurd hrest hne
        · rw [hrest, List.getLast?_cons_cons] at hc
          apply hlast
          rw [hrest]
          exact hc
      · intro c hc
        rcases List.mem_cons.1 hc with hc | hc
        · subst hc; simp only [hmin]; omega
        · exact hbound c hc

/-- C3: for every `start < end` and chunk duration `D > 0` (in days),
`chunk_dates` returns an ordered sequence of chunks with `chunk[0].start =
start`, `chunk[i].end = min(chunk[i].start + D, end)`, `chunk[i+1].start =
chunk[i].end`, the last chunk ending exactly at `end`, no chunk's end
exceeding `end`, and strictly increasing chunk boundaries (contiguous,
non-overlapping, full coverage of the interval). -/
theorem chunk_dates_spec (start fin days : ℤ) (hd : 0 < days) (hlt : start < fin) :
    chunk_dates start fin days ≠ [] ∧
    (∀ c ∈ (chunk_dates start fin days).head?, c.1 = start) ∧
    (∀ c ∈ chunk_dates start fin days, c.2 = min (c.1 + timedelta_days days) fin) ∧
    List.Chain' (fun a b => a.2 = b.1) (chunk_dates start fin days) ∧
    (∀ c ∈ (chunk_dates start fin days).getLast?, c.2 = fin) ∧
    (∀ c ∈ chunk_dates start fin days, c.2 ≤ fin) ∧
    (∀ c ∈ chunk_dates start fin days, c.1 < c.2) := by
  obtain ⟨h1, h2, h3, h4, h5, h6⟩ :=
    chunk_dates_go_spec days fin hd (fin - start).toNat start hlt (le_refl _)
  exact ⟨h1, h2, h3, h4, h5,
    fun c hc => by rw [h3 c hc]; exact min_le_right _ _, h6⟩

/-- Witness for C3 at the concrete input `start = 0`, `end = 10` (µs),
`days = 1`: the hypotheses hold and the conclusion evaluates. -/
theorem chunk_dates_spec_witness :
    (0 : ℤ) < 1 ∧ (0 : ℤ) < 10 ∧
    (chunk_dates 0 10 1 ≠ [] ∧
     (∀ c ∈ (chunk_dates 0 10 1).head?, c.1 = 0) ∧
     (∀ c ∈ chunk_dates 0 10 1, c.2 = min (c.1 + timedelta_days 1) 10) ∧
     List.Chain' (fun a b => a.2 = b.1) (chunk_dates 0 10 1) ∧
     (∀ c ∈ (chunk_dates 0 10 1).getLast?, c.2 = 10) ∧
     (∀ c ∈ chunk_dates 0 10 1, c.2 ≤ 10) ∧
     (∀ c ∈ chunk_dates 0 10 1, c.1 < c.2)) :=
  ⟨by decide, by decide, chunk_dates_spec 0 10 1 (by decide) (by decide)⟩

/-- C7 counterexample: with `start = datetime(2026, 2, 28) ≥ end =
datetime(2026, 1, 29)`, `chunk_dates` silently returns the empty chunk list
instead of treating the input as an error — the `while current < end` loop
body never runs and no validation exists. -/
theorem chunk_dates_no_validation_counterexample :
    pyDatetime 2026 1 29 ≤ pyDatetime 2026 2 28 ∧
    chunk_dates (pyDatetime 2026 2 28) (pyDatetime 2026 1 29) 3 = [] := by
  constructor
  · decide
  · rfl

/-- C7 amended: for every pair of timestamps with `start ≥ end`, `chunk_dates`
silently returns the empty list of chunks (it performs no input validation
and raises no error). -/
theorem chunk_dates_eq_nil_of_ge (start fin days : ℤ) (h : fin ≤ start) :
    chunk_dates start fin days = [] := by
  unfold chunk_dates
  exact chunk_dates_go_of_not_lt (by omega)

/-- Witness for the amended C7 at the concrete input `start = end = 5`. -/
theorem chunk_dates_eq_nil_of_ge_witness :
    (5 : ℤ) ≤ 5 ∧ chunk_dates 5 5 3 = [] :=
  ⟨by decide, chunk_dates_eq_nil_of_ge 5 5 3 (by decide)⟩

/-! ## Properties of the attendee partitioner -/

lemma rangeAscGo_of_not_lt {fuel : ℕ} {s t step : ℤ} (h : ¬ s < t) :
    rangeAscGo fuel s t step = [] := by
  cases fuel <;> simp [rangeAscGo, h]

/-- Shifting the start and the stop of an ascending range by `c` shifts every
element by `c`. -/
lemma rangeAscGo_shift (step c : ℤ) :
    ∀ (fuel : ℕ) (s t : ℤ),
      rangeAscGo fuel (s + c) t step = (rangeAscGo fuel s (t - c) step).map (· + c) := by
  intro fuel
  induction fuel with
  | zero => intro s t; simp [rangeAscGo]
  | succ fuel ih =>
    intro s t
    by_cases h : s < t - c
    · have h' : s + c < t := by omega
      simp only [rangeAscGo, if_pos h, if_pos h', List.map_cons]
      have harg : s + c + step = s + step + c := by ring
      rw [harg, ih]
    · have h' : ¬ s + c < t := by omega
      simp [rangeAscGo, h, h']

/-- Every element of an ascending range is at least its start. -/
lemma rangeAscGo_mem_le {step : ℤ} (hstep : 0 ≤ step) :
    ∀ (fuel : ℕ) (s t i : ℤ), i ∈ rangeAscGo fuel s t step → s ≤ i := by
  intro fuel
  induction fuel with
  | zero => intro s t i h; simp [rangeAscGo] at h
  | succ fuel ih =>
    intro s t i h
    simp only [rangeAscGo] at h
    split at h
    · rcases List.mem_cons.1 h with rfl | h
      · exact le_refl _
      · have := ih (s + step) t i h; omega
    · simp at h

/-- The slice `l[i+B : i+2B]` is the slice `(l[B:])[i : i+B]` of the list with
its first `B` elements dropped (for nonnegative `i`, `B`). -/
lemma pySlice_add_drop {α : Type} (l : List α) (B i : ℤ) (hB : 0 ≤ B) (hi : 0 ≤ i) :
    pySlice l (i + B) (i + B + B) = pySlice (l.drop B.toNat) i (i + B) := by
  unfold pySlice
  rw [List.take_drop, List.drop_drop]
  have h2 : (i + B + B).toNat = B.toNat + (i + B).toNat := by omega
  have h1 : (i + B).toNat = B.toNat + i.toNat := by omega
  rw [h2, h1]

/-- Invariants of the comprehension
`[xs[i:i+B] for i in range(0, len(xs), B)]` for positive `B`, by induction on
the range fuel: the pieces concatenate back to `xs`, all pieces but the last
have exactly `B` elements, and every piece has between 1 and `B` elements. -/
lemma batch_parts_spec (B : ℤ) (hB : 0 < B) :
    ∀ (fuel : ℕ) (xs : List String), xs.length ≤ fuel →
      (((rangeAscGo fuel 0 xs.length B).map (fun i => pySlice xs i (i + B))).flatten = xs) ∧
      (∀ p ∈ ((rangeAscGo fuel 0 xs.length B).map (fun i => pySlice xs i (i + B))).dropLast,
        p.length = B.toNat) ∧
      (∀ p ∈ (rangeAscGo fuel 0 xs.length B).map (fun i => pySlice xs i (i + B)),
        0 < p.length ∧ p.length ≤ B.toNat) := by
  intro fuel
  induction fuel with
  | zero =>
    intro xs hlen
    have hxs : xs = [] := List.length_eq_zero.1 (by omega)
    subst hxs
    simp [rangeAscGo]
  | succ fuel ih =>
    intro xs hlen
    rcases eq_or_ne xs [] with rfl | hne
    · simp [rangeAscGo]
    · have hL : (0 : ℤ) < xs.length := by
        have := List.length_pos.2 hne
        omega
      -- unfold one step of the range and shift the tail down by B
      rw [show rangeAscGo (fuel + 1) 0 (xs.length : ℤ) B
            = 0 :: rangeAscGo fuel (0 + B) (xs.length : ℤ) B from by
          simp only [rangeAscGo, if_pos hL],
        rangeAscGo_shift B B fuel 0 (xs.length : ℤ)]
      -- the shifted tail range is the range of the dropped list
      have hdroplen : ((xs.drop B.toNat).length : ℤ) = max ((xs.length : ℤ) - B) 0 := by
        simp only [List.length_drop]
        omega
      have hrange_eq : rangeAscGo fuel 0 ((xs.length : ℤ) - B) B
          = rangeAscGo fuel 0 ((xs.drop B.toNat).length : ℤ) B := by
        by_cases hBL : B ≤ (xs.length : ℤ)
        · have : ((xs.drop B.toNat).length : ℤ) = (xs.length : ℤ) - B := by omega
          rw [this]
        · rw [rangeAscGo_of_not_lt (by omega), rangeAscGo_of_not_lt (by omega)]
      -- rewrite the mapped slices of xs as slices of the dropped list
      have hmap : ((rangeAscGo fuel 0 ((xs.length : ℤ) - B) B).map (· + B)).map
            (fun i => pySlice xs i (i + B))
          = (rangeAscGo fuel 0 ((xs.drop B.toNat).length : ℤ) B).map
            (fun i => pySlice (xs.drop B.toNat) i (i + B)) := by
        rw [List.map_map, hrange_eq]
        refine List.map_congr_left ?_
        intro i hi
        have hi0 : 0 ≤ i := rangeAscGo_mem_le (le_of_lt hB) fuel 0 _ i hi
        simp only [Function.comp_apply]
        exact pySlice_add_drop xs B i (le_of_lt hB) hi0
      rw [List.map_cons, hmap]
      -- head slice is `take B`, tail is the induction hypothesis on the drop
      have hhead : pySlice xs 0 (0 + B) = xs.take B.toNat := by
        simp [pySlice]
      obtain ⟨ihj, ihd, ihm⟩ := ih (xs.drop B.toNat) (by
        simp only [List.length_drop]
        omega)
      rw [hhead]
      refine ⟨?_, ?_, ?_⟩
      · rw [List.flatten_cons, ihj, List.take_append_drop]
      · rcases htp : (rangeAscGo fuel 0 ((xs.drop B.toNat).length : ℤ) B).map
            (fun i => pySlice (xs.drop B.toNat) i (i + B)) with _ | ⟨q, qs⟩
        · simp
        · rw [List.dropLast_cons₂]
          intro p hp
          rcases List.mem_cons.1 hp with rfl | hp'
          · -- the head piece is not last, so the range of the drop is nonempty
            have hnonnil : rangeAscGo fuel 0 ((xs.drop B.toNat).length : ℤ) B ≠ [] := by
              intro hnil
              rw [hnil] at htp
              simp at htp
            have hpos : (0 : ℤ) < (xs.drop B.toNat).length := by
              by_contra hc
              exact hnonnil (rangeAscGo_of_not_lt hc)
            have : B.toNat < xs.length := by
              simp only [List.length_drop] at hpos
              omega
            simp only [List.length_take]
            omega
          · exact ihd p (htp ▸ hp')
      · intro p hp
        rcases List.mem_cons.1 hp with rfl | hp'
        · constructor
          · simp only [List.length_take]
            have : 0 < xs.length := List.length_pos.2 hne
            omega
          · simp only [List.length_take]
            omega
        · exact ihm p hp'

/-- For a positive batch size, `batch_attendees` succeeds and equals the
mapped slice comprehension with fuel `len(attendees)`. -/
lemma batch_attendees_eq_ok (attendees : List String) (B : ℤ) (hB : 0 < B) :
    batch_attendees attendees B
      = .ok ((rangeAscGo attendees.length 0 attendees.length B).map
          (fun i => pySlice attendees i (i + B))) := by
  have hfuel : ((attendees.length : ℤ) - 0).toNat = attendees.length := by omega
  simp [batch_attendees, pyRange, hB, hB.ne', Except.map, hfuel]

/-- C2: for every participant list and batch size `B > 0`, `batch_attendees`
returns an ordered sequence of partitions whose concatenation reproduces the
original list exactly; every partition except possibly the last has exactly
`B` elements, every partition (the last included) has between 1 and `B`
elements, and the empty list yields zero partitions. -/
theorem batch_attendees_spec (attendees : List String) (B : ℤ) (hB : 0 < B) :
    ∃ parts, batch_attendees attendees B = .ok parts ∧
      parts.flatten = attendees ∧
      (∀ p ∈ parts.dropLast, p.length = B.toNat) ∧
      (∀ p ∈ parts, 0 < p.length ∧ p.length ≤ B.toNat) ∧
      (attendees = [] → parts = []) := by
  refine ⟨_, batch_attendees_eq_ok attendees B hB, ?_, ?_, ?_, ?_⟩
  · exact (batch_parts_spec B hB attendees.length attendees (le_refl _)).1
  · exact (batch_parts_spec B hB attendees.length attendees (le_refl _)).2.1
  · exact (batch_parts_spec B hB attendees.length attendees (le_refl _)).2.2
  · intro h
    subst h
    simp [rangeAscGo]

/-- Witness for C2 at the concrete input `["a", "b", "c"]`, `B = 2`. -/
theorem batch_attendees_spec_witness :
    (0 : ℤ) < 2 ∧
    ∃ parts, batch_attendees ["a", "b", "c"] 2 = .ok parts ∧
      parts.flatten = ["a", "b", "c"] ∧
      (∀ p ∈ parts.dropLast, p.length = (2 : ℤ).toNat) ∧
      (∀ p ∈ parts, 0 < p.length ∧ p.length ≤ (2 : ℤ).toNat) ∧
      ((["a", "b", "c"] : List String) = [] → parts = []) :=
  ⟨by decide, batch_attendees_spec ["a", "b", "c"] 2 (by decide)⟩

/-- C6 counterexample: for the batch size `-1 ≤ 0` the partitioner raises no
validation error — `range(0, 1, -1)` is simply empty, so `batch_attendees`
silently returns the empty partitioning of `["alice"]`. -/
theorem batch_attendees_no_validation_counterexample :
    (-1 : ℤ) ≤ 0 ∧ batch_attendees ["alice"] (-1) = .ok [] :=
  ⟨by decide, rfl⟩

lemma batch_attendees_zero (attendees : List String) :
    batch_attendees attendees 0 = .error "range() arg 3 must not be zero" := by
  simp [batch_attendees, pyRange, Except.map]

lemma batch_attendees_neg (attendees : List String) (B : ℤ) (hneg : B < 0) :
    batch_attendees attendees B = .ok [] := by
  have h1 : ((0 : ℤ) - attendees.length).toNat = 0 := by omega
  have hnot : ¬ (0 : ℤ) < B := by omega
  simp only [batch_attendees, pyRange, if_neg hneg.ne, if_neg hnot]
  simp [h1, rangeDescGo, Except.map]

/-- For every nonzero batch size the partitioner returns normally. -/
lemma batch_attendees_ok_of_ne_zero (attendees : List String) (B : ℤ) (hB : B ≠ 0) :
    ∃ batches, batch_attendees attendees B = .ok batches := by
  rcases lt_or_gt_of_ne hB with hneg | hpos
  · exact ⟨[], batch_attendees_neg attendees B hneg⟩
  · exact ⟨_, batch_attendees_eq_ok attendees B hpos⟩

/-- C6 amended: `batch_size = 0` is rejected (the `ValueError` raised by
`range` with a zero step propagates), but a *negative* batch size is
silently accepted and yields the empty partition list. -/
theorem batch_attendees_nonpos_spec (attendees : List String) (B : ℤ) (hB : B ≤ 0) :
    (B = 0 → batch_attendees attendees B = .error "range() arg 3 must not be zero") ∧
    (B < 0 → batch_attendees attendees B = .ok []) := by
  constructor
  · intro h0
    subst h0
    exact batch_attendees_zero attendees
  · intro hneg
    exact batch_attendees_neg attendees B hneg

/-- Witness for the amended C6 at the concrete input `B = -3`. -/
theorem batch_attendees_nonpos_spec_witness :
    (-3 : ℤ) ≤ 0 ∧ (-3 : ℤ) < 0 ∧ batch_attendees ["x", "y"] (-3) = .ok [] :=
  ⟨by decide, by decide, (batch_attendees_nonpos_spec ["x", "y"] (-3) (by decide)).2 (by decide)⟩

/-! ## Properties of the call scheduler & aggregator -/

/-- Characterization of the aggregation loop body folded over a result list:
it appends the results in order and counts successes and failures. -/
lemma aggStep_foldl (rs : List CallResult) :
    ∀ acc : List CallResult × ℕ × ℕ,
      rs.foldl aggStep acc =
        (acc.1 ++ rs,
         acc.2.1 + rs.countP (fun r => decide (r.status = 200)),
         acc.2.2 + rs.countP (fun r => decide (¬ r.status = 200))) := by
  induction rs with
  | nil => intro acc; simp
  | cons r rs ih =>
    intro acc
    rw [List.foldl_cons, ih]
    by_cases h : r.status = 200 <;>
      simp [aggStep, h, List.countP_cons] <;> omega

/-- The nested `for batch: for chunk:` loop is the flat fold over the
per-unit results in partition-major, chunk-minor order. -/
lemma run_loop_eq_foldl (api : Api) (duration max_candidates : ℤ)
    (chunks : List (ℤ × ℤ)) :
    ∀ (batches : List (List String)) (acc : List CallResult × ℕ × ℕ),
      batches.foldl (fun acc batch =>
        chunks.foldl (fun acc chunk =>
          aggStep acc (call_findmeetingtimes api batch
            (isoformat chunk.1) (isoformat chunk.2) duration max_candidates)) acc) acc
      = (unit_results api batches chunks duration max_candidates).foldl aggStep acc := by
  intro batches
  induction batches with
  | nil => intro acc; simp [unit_results]
  | cons b bs ih =>
    intro acc
    rw [List.foldl_cons, ih]
    rw [show chunks.foldl (fun acc chunk =>
          aggStep acc (call_findmeetingtimes api b
            (isoformat chunk.1) (isoformat chunk.2) duration max_candidates)) acc
        = (chunks.map (fun chunk => call_findmeetingtimes api b
            (isoformat chunk.1) (isoformat chunk.2) duration max_candidates)).foldl
            aggStep acc from (List.foldl_map _ _ _ _).symm]
    rw [show unit_results api (b :: bs) chunks duration max_candidates
        = (chunks.map (fun chunk => call_findmeetingtimes api b
            (isoformat chunk.1) (isoformat chunk.2) duration max_candidates))
          ++ unit_results api bs chunks duration max_candidates from by
      simp [unit_results]]
    rw [List.foldl_append]

/-- `run_mitigation` on a successful partitioning: the returned report in
terms of the per-unit result list. -/
lemma run_mitigation_eq (api : Api) (attendees : List String) (start fin : ℤ)
    (batch_size days_per_chunk duration max_candidates : ℤ)
    (batches : List (List String))
    (hb : batch_attendees attendees batch_size = .ok batches) :
    run_mitigation api attendees start fin batch_size days_per_chunk duration max_candidates
      = .ok
        { total_calls := (unit_results api batches (chunk_dates start fin days_per_chunk)
            duration max_candidates).length
          successful := (unit_results api batches (chunk_dates start fin days_per_chunk)
            duration max_candidates).countP (fun r => decide (r.status = 200))
          failed := (unit_results api batches (chunk_dates start fin days_per_chunk)
            duration max_candidates).countP (fun r => decide (¬ r.status = 200))
          success_rate := if unit_results api batches (chunk_dates start fin days_per_chunk)
              duration max_candidates = [] then 0
            else ((unit_results api batches (chunk_dates start fin days_per_chunk)
              duration max_candidates).countP (fun r => decide (r.status = 200)) : ℚ)
              / ((unit_results api batches (chunk_dates start fin days_per_chunk)
                duration max_candidates).length : ℚ)
          results := unit_results api batches (chunk_dates start fin days_per_chunk)
            duration max_candidates } := by
  simp only [run_mitigation, hb]
  rw [run_loop_eq_foldl, aggStep_foldl]
  simp

/-- The number of per-unit results is `#batches * #chunks`. -/
lemma unit_results_length (api : Api) (batches : List (List String))
    (chunks : List (ℤ × ℤ)) (duration max_candidates : ℤ) :
    (unit_results api batches chunks duration max_candidates).length
      = batches.length * chunks.length := by
  induction batches with
  | nil => simp [unit_results]
  | cons b bs ih =>
    simp only [unit_results, List.flatMap_cons, List.length_append, List.length_map] at ih ⊢
    rw [ih, List.length_cons]
    ring

/-- Successes and failures partition the result list. -/
lemma countP_status_add (l : List CallResult) :
    l.countP (fun r => decide (r.status = 200))
      + l.countP (fun r => decide (¬ r.status = 200)) = l.length := by
  induction l with
  | nil => simp
  | cons r rs ih =>
    rw [List.countP_cons, List.countP_cons, List.length_cons, ← ih]
    by_cases h : r.status = 200 <;> simp [h] <;> omega

/-- C1: for every oracle behavior (hence for every subset of per-unit
external-call failures), `run_mitigation` processes every `CallUnit` without
aborting: it returns normally, the result list has exactly one entry per
`CallUnit` (`#batches * #chunks` of them), successes and failures partition
the calls, and `success_rate` equals `successful / total_calls` exactly, with
the value 0 when `total_calls = 0`.  No per-unit failure ever escapes the
aggregator — the only error path is the pre-flight `ValueError` of a zero
batch size, excluded by `hbs`. -/
theorem run_mitigation_isolation (api : Api) (attendees : List String) (start fin : ℤ)
    (batch_size days_per_chunk duration max_candidates : ℤ)
    (hbs : batch_size ≠ 0) (hd : 0 < days_per_chunk) :
    ∃ batches report,
      batch_attendees attendees batch_size = .ok batches ∧
      run_mitigation api attendees start fin batch_size days_per_chunk duration
        max_candidates = .ok report ∧
      report.results.length = batches.length * (chunk_dates start fin days_per_chunk).length ∧
      report.total_calls = report.results.length ∧
      report.successful + report.failed = report.total_calls ∧
      report.success_rate = (report.successful : ℚ) / (report.total_calls : ℚ) ∧
      (report.total_calls = 0 → report.success_rate = 0) := by
  obtain ⟨batches, hb⟩ := batch_attendees_ok_of_ne_zero attendees batch_size hbs
  refine ⟨batches, _,
    hb, run_mitigation_eq api attendees start fin batch_size days_per_chunk duration
      max_candidates batches hb, ?_, rfl, ?_, ?_, ?_⟩
  · exact unit_results_length api batches (chunk_dates start fin days_per_chunk)
      duration max_candidates
  · exact countP_status_add _
  · rcases hu : unit_results api batches (chunk_dates start fin days_per_chunk)
        duration max_candidates with _ | ⟨r, rs⟩
    · simp [hu]
    · simp [hu]
  · intro h0
    simp only at h0 ⊢
    have : unit_results api batches (chunk_dates start fin days_per_chunk)
        duration max_candidates = [] := List.length_eq_zero.1 h0
    simp [this]

/-- Witness for C1 at a concrete input where the single external call fails
with HTTP 502: one attendee, batch size 1, the 1 µs interval `[0, 1)` with
1-day chunks. -/
theorem run_mitigation_isolation_witness :
    (1 : ℤ) ≠ 0 ∧ (0 : ℤ) < 1 ∧
    (∃ batches report,
      batch_attendees ["a"] 1 = .ok batches ∧
      run_mitigation api502 ["a"] 0 1 1 1 60 50 = .ok report ∧
      report.results.length = batches.length * (chunk_dates 0 1 1).length ∧
      report.total_calls = report.results.length ∧
      report.successful + report.failed = report.total_calls ∧
      report.success_rate = (report.successful : ℚ) / (report.total_calls : ℚ) ∧
      (report.total_calls = 0 → report.success_rate = 0)) :=
  ⟨by decide, by decide, run_mitigation_isolation api502 ["a"] 0 1 1 1 60 50
    (by decide) (by decide)⟩

/-- C4: the number of `CallUnit`s processed by `run_mitigation` — and hence
the number of external calls issued, one per entry of the result list —
equals `#partitions * #chunks`, and is reported as `total_calls`. -/
theorem run_mitigation_call_count (api : Api) (attendees : List String) (start fin : ℤ)
    (batch_size days_per_chunk duration max_candidates : ℤ)
    (hbs : batch_size ≠ 0) (hd : 0 < days_per_chunk) :
    ∃ batches report,
      batch_attendees attendees batch_size = .ok batches ∧
      run_mitigation api attendees start fin batch_size days_per_chunk duration
        max_candidates = .ok report ∧
      report.total_calls = batches.length * (chunk_dates start fin days_per_chunk).length ∧
      report.results.length = report.total_calls := by
  obtain ⟨batches, hb⟩ := batch_attendees_ok_of_ne_zero attendees batch_size hbs
  refine ⟨batches, _,
    hb, run_mitigation_eq api attendees start fin batch_size days_per_chunk duration
      max_candidates batches hb, ?_, rfl⟩
  exact unit_results_length api batches (chunk_dates start fin days_per_chunk)
    duration max_candidates

/-- Witness for C4 at the spec's example scenario: 25 participants with batch
size 5 and the 30-day range `datetime(2026, 1, 29)`–`datetime(2026, 2, 28)`
with 3-day chunks yield `5 * 10 = 50` calls. -/
theorem run_mitigation_call_count_witness :
    ∃ report,
      run_mitigation api502 att25 (pyDatetime 2026 1 29) (pyDatetime 2026 2 28)
        5 3 60 50 = .ok report ∧
      report.total_calls = 50 := by
  obtain ⟨batches, report, hb, hr, hcount, _⟩ :=
    run_mitigation_call_count api502 att25 (pyDatetime 2026 1 29) (pyDatetime 2026 2 28)
      5 3 60 50 (by decide) (by decide)
  have h5 : (batch_attendees att25 5).map List.length = .ok 5 := by rfl
  rw [hb] at h5
  simp only [Except.map, Except.ok.injEq] at h5
  have hlen : batches.length = 5 := by omega
  have h10 : (chunk_dates (pyDatetime 2026 1 29) (pyDatetime 2026 2 28) 3).length = 10 := by
    rfl
  refine ⟨report, hr, ?_⟩
  rw [hcount, hlen, h10]

/-- C5: `run_mitigation` enumerates and processes the `CallUnit`s in
partition-major, chunk-minor order — the Cartesian product
`batches ×ˢ chunks` in lexicographic order — and the returned result list is
exactly the per-unit call results in this processing order. -/
theorem run_mitigation_order (api : Api) (attendees : List String) (start fin : ℤ)
    (batch_size days_per_chunk duration max_candidates : ℤ)
    (hbs : batch_size ≠ 0) (hd : 0 < days_per_chunk) :
    ∃ batches report,
      batch_attendees attendees batch_size = .ok batches ∧
      run_mitigation api attendees start fin batch_size days_per_chunk duration
        max_candidates = .ok report ∧
      report.results
        = (batches.product (chunk_dates start fin days_per_chunk)).map
            (fun u => call_findmeetingtimes api u.1 (isoformat u.2.1) (isoformat u.2.2)
              duration max_candidates) := by
  obtain ⟨batches, hb⟩ := batch_attendees_ok_of_ne_zero attendees batch_size hbs
  refine ⟨batches, _,
    hb, run_mitigation_eq api attendees start fin batch_size days_per_chunk duration
      max_candidates batches hb, ?_⟩
  simp only [unit_results, List.product, List.map_flatMap, List.map_map]
  rfl

/-- Witness for C5 at a concrete input: three attendees, batch size 2 (two
partitions), one 1-day chunk over `[0, 10)` µs. -/
theorem run_mitigation_order_witness :
    ∃ batches report,
      batch_attendees ["a", "b", "c"] 2 = .ok batches ∧
      run_mitigation api502 ["a", "b", "c"] 0 10 2 1 60 50 = .ok report ∧
      report.results
        = (batches.product (chunk_dates 0 10 1)).map
            (fun u => call_findmeetingtimes api502 u.1 (isoformat u.2.1) (isoformat u.2.2)
              60 50) :=
  run_mitigation_order api502 ["a", "b", "c"] 0 10 2 1 60 50 (by decide) (by decide)

/-- C8: when the configured participant list is missing or empty (the
`TEST_ATTENDEES` value parses to no attendees), the driver propagates the
validation `ValueError` of `load_test_attendees` to its caller before
`run_mitigation` ever runs — for *every* oracle the outcome is the same
error, so no external call is issued or recorded. -/
theorem empty_attendees_validation (raw_value : String)
    (h : ((pySplitComma raw_value).map pyStrip).filter (fun s => s != "") = []) :
    ∀ api : Api, test_mitigation_effectiveness api raw_value
      = .error "TEST_ATTENDEES is required. Provide a comma-separated list in .env." := by
  intro api
  simp [test_mitigation_effectiveness, load_test_attendees, h]

/-- Witness for C8 at the concrete input of a missing variable
(`os.getenv` default `""`), with the always-failing oracle. -/
theorem empty_attendees_validation_witness :
    (((pySplitComma "").map pyStrip).filter (fun s => s != "") = ([] : List String)) ∧
    test_mitigation_effectiveness api502 ""
      = .error "TEST_ATTENDEES is required. Provide a comma-separated list in .env." :=
  ⟨by rfl, empty_attendees_validation "" (by rfl) api502⟩

/-- C9: partitioning and chunking are deterministic.  The embeddings of
`batch_attendees` and `chunk_dates` take no oracle, environment, randomness
or clock argument because the Python bodies read nothing but their
parameters; hence two invocations on equal arguments return equal results. -/
theorem partitioner_chunker_deterministic (xs₁ xs₂ : List String)
    (B₁ B₂ s₁ s₂ e₁ e₂ d₁ d₂ : ℤ)
    (hxs : xs₁ = xs₂) (hB : B₁ = B₂) (hs : s₁ = s₂) (he : e₁ = e₂) (hd : d₁ = d₂) :
    batch_attendees xs₁ B₁ = batch_attendees xs₂ B₂ ∧
    chunk_dates s₁ e₁ d₁ = chunk_dates s₂ e₂ d₂ := by
  subst hxs; subst hB; subst hs; subst he; subst hd
  exact ⟨rfl, rfl⟩

/-- Witness for C9 at concrete repeated invocations. -/
theorem partitioner_chunker_deterministic_witness :
    batch_attendees ["a", "b"] 1 = batch_attendees ["a", "b"] 1 ∧
    chunk_dates 0 10 1 = chunk_dates 0 10 1 :=
  partitioner_chunker_deterministic ["a", "b"] ["a", "b"] 1 1 0 0 10 10 1 1
    rfl rfl rfl rfl rfl

/-- C10: `call_findmeetingtimes` never raises to its caller (its embedding is
total, mirroring the `try`/`except Exception` that wraps the whole body):
the returned dict's `status` is either 200 or 500; when the awaited call
returns it is exactly 200 with the normalized payload, and when the call
raises — whatever the remote status code carried by the exception, e.g.
502 — it is exactly 500 with the exception text `str(e)` as `data`, so the
remote status code is never preserved in the returned `status` field. -/
theorem call_findmeetingtimes_total_status (api : Api) (attendees : List String)
    (start_s end_s : String) (duration max_candidates : ℤ) :
    ((call_findmeetingtimes api attendees start_s end_s duration max_candidates).status = 200 ∨
     (call_findmeetingtimes api attendees start_s end_s duration max_candidates).status = 500) ∧
    (∀ r, api attendees start_s end_s duration max_candidates = .ok r →
      call_findmeetingtimes api attendees start_s end_s duration max_candidates
        = { status := 200, data := .success (normalize_response r) }) ∧
    (∀ e, api attendees start_s end_s duration max_candidates = .error e →
      call_findmeetingtimes api attendees start_s end_s duration max_candidates
        = { status := 500, data := .errText e.msg }) := by
  refine ⟨?_, ?_, ?_⟩
  · rcases h : api attendees start_s end_s duration max_candidates with e | r
    · right
      simp [call_findmeetingtimes, h]
    · left
      simp [call_findmeetingtimes, h]
  · intro r hr
    simp [call_findmeetingtimes, hr]
  · intro e he
    simp [call_findmeetingtimes, he]

/-- Witness for C10: the oracle fails with remote status 502, yet the
returned status is 500 and the data is the exception text. -/
theorem call_findmeetingtimes_total_status_witness :
    call_findmeetingtimes api502 ["p1"] "s" "e" 60 50
      = { status := 500, data := .errText "Bad Gateway" } :=
  (call_findmeetingtimes_total_status api502 ["p1"] "s" "e" 60 50).2.2
    { code := 502, msg := "Bad Gateway" } rfl
